import Mathlib

/-!
Verification development for the cfn-lint constraint-validation engine.

The definitions below are a shallow embedding of the Python sources:
  * `src/cfnlint/schema/validator.py`   (the `create` factory: `iter_errors`,
    `descend`, `is_valid`, scope handling)
  * `src/cfnlint/jsonschema/_validators.py`  (the keyword validator library)
  * `src/cfnlint/schema/_legacy_validators.py` (legacy keyword validators)
  * `src/cfnlint/schema/_types.py`      (type predicates)

Parsed JSON values (instances and schemas alike) are modelled by `Cfn.JValue`.
Python booleans are a subtype of int; the embedding keeps them as a separate
constructor and makes the isinstance checks explicit where the source relies
on that subtyping.  Python floats are carried as exact rationals: no claim in
this development depends on rounding, only on which constructor a value has
and on integrality of a float.

Generators are modelled as fully evaluated lists of the items they yield.  A
Python generator may yield `None`; item streams therefore have the type
`List (Option VError)`, with `none` standing for a yielded Python `None`.

The shared `RefResolver` (an external collaborator from the jsonschema
library) is modelled by `Cfn.Resolver`: the scope stack is a Lean list whose
last element is the innermost scope (Python appends on push), and document
resolution is an association list keyed by the joined URI.  `urljoin` and
`urldefrag` are modelled for the URI shapes exercised here: absolute URIs and
fragment-only references.
-/

namespace Cfn

/-- A path segment of an error: an object key or an array index. -/
inductive Seg where
  | key (s : String)
  | idx (n : Nat)
deriving DecidableEq, Repr

/-- Parsed JSON values, the data model shared by instances and schemas.
Python `bool` is kept distinct from `int`; `float` carries its exact value
as a rational. -/
inductive JValue where
  | null
  | bool (b : Bool)
  | int (n : Int)
  | float (q : ℚ)
  | str (s : String)
  | arr (xs : List JValue)
  | obj (kvs : List (String × JValue))
deriving Repr

/-- A single quote character, used to build Python `repr` strings. -/
def squote : String := String.singleton (Char.ofNat 39)

/-- Left brace as text. -/
def lbrace : String := String.singleton (Char.ofNat 123)

/-- Right brace as text. -/
def rbrace : String := String.singleton (Char.ofNat 125)

mutual

/-- Python `repr` of a parsed value, as interpolated by the `!r` conversions
in the source error messages.  String repr is modelled for strings without
quotes or escapes; float repr for integral floats. -/
def pyRepr : JValue → String
  | .null => "None"
  | .bool true => "True"
  | .bool false => "False"
  | .int n => toString n
  | .float q => if q.den = 1 then toString q.num ++ ".0" else toString q.num ++ "/" ++ toString q.den
  | .str s => squote ++ s ++ squote
  | .arr xs => "[" ++ String.intercalate ", " (pyReprList xs) ++ "]"
  | .obj kvs => lbrace ++ String.intercalate ", " (pyReprObj kvs) ++ rbrace

/-- `repr` of each element of a list. -/
def pyReprList : List JValue → List String
  | [] => []
  | x :: xs => pyRepr x :: pyReprList xs

/-- `repr` of each `key: value` entry of a mapping. -/
def pyReprObj : List (String × JValue) → List String
  | [] => []
  | (k, v) :: kvs => (squote ++ k ++ squote ++ ": " ++ pyRepr v) :: pyReprObj kvs

end

/-- Mapping lookup: Python `mapping.get(key)` on a parsed object. -/
def jGet (kvs : List (String × JValue)) (k : String) : Option JValue :=
  (kvs.find? (fun kv => kv.1 == k)).map (fun kv => kv.2)

/-- Python `key in mapping`. -/
def jHasKey (kvs : List (String × JValue)) (k : String) : Bool :=
  kvs.any (fun kv => kv.1 == k)

/-- `schema.get(k)` where the schema may also be a boolean. -/
def sGet (schema : JValue) (k : String) : Option JValue :=
  match schema with
  | .obj kvs => jGet kvs k
  | _ => none

/-- `schema.get(k, default)` for an integer-valued keyword argument.  The
source would raise on a non-integer argument in a comparison; only integer
arguments are modelled. -/
def getIntD (schema : JValue) (k : String) (d : Int) : Int :=
  match sGet schema k with
  | some (.int n) => n
  | _ => d

/-- Python `len` of a parsed value (sequences, mappings and strings). -/
def jLen : JValue → Nat
  | .arr xs => xs.length
  | .obj kvs => kvs.length
  | .str s => s.length
  | _ => 0

/-- Python truth-value test `bool(v)` on a parsed value (`not aP` in the
source is `¬ jTruthy aP`). -/
def jTruthy : JValue → Bool
  | .null => false
  | .bool b => b
  | .int n => n != 0
  | .float q => q != 0
  | .str s => s != ""
  | .arr xs => !xs.isEmpty
  | .obj kvs => !kvs.isEmpty

/-! ### Type predicates, from `src/cfnlint/schema/_types.py`.

Each source predicate takes an unused `checker` first argument, dropped
here.  Python `isinstance(v, int)` is true for booleans as well; the
explicit bool guards in the source are what the separate constructors
make visible. -/

/-- `is_array`: `isinstance(instance, list)`. -/
def is_array : JValue → Bool
  | .arr _ => true
  | _ => false

/-- `is_bool`: `isinstance(instance, bool)`. -/
def is_bool : JValue → Bool
  | .bool _ => true
  | _ => false

/-- `is_integer`: rejects `bool` (a subtype of `int` in Python), then checks
`isinstance(instance, int)`.  A float is never an `int` instance, so
integral floats are rejected. -/
def is_integer : JValue → Bool
  | .bool _ => false
  | .int _ => true
  | _ => false

/-- `is_null`: `instance is None`. -/
def is_null : JValue → Bool
  | .null => true
  | _ => false

/-- `is_number`: rejects `bool`, then checks `isinstance(instance,
numbers.Number)`; `int` and `float` are the numeric values modelled. -/
def is_number : JValue → Bool
  | .bool _ => false
  | .int _ => true
  | .float _ => true
  | _ => false

/-- `is_object`: `isinstance(instance, dict)`. -/
def is_object : JValue → Bool
  | .obj _ => true
  | _ => false

/-- `is_string`: `isinstance(instance, str)`. -/
def is_string : JValue → Bool
  | .str _ => true
  | _ => false

/-- Whether a float is mathematically integral: Python `float.is_integer`. -/
def floatIsIntegral : JValue → Bool
  | .float q => q.den == 1
  | _ => false

/-- The `integer` entry of the type table assembled by the host in
`src/cfnlint/rules/resources/properties/JsonSchema.py`
(`_setup_validator`): `is_integer(checker, instance) or
isinstance(instance, float) and instance.is_integer()`. -/
def is_integer_host (v : JValue) : Bool :=
  is_integer v || (is_bool_float v && floatIsIntegral v)
where
  /-- `isinstance(instance, float)`. -/
  is_bool_float : JValue → Bool
    | .float _ => true
    | _ => false

/-- The engine-side `is_type` dispatch over registered type names, with the
draft-7 semantics that `create` defaults to (these agree with the predicates
of `_types.py` on the names below).  An unregistered name raises
`UnknownType` in the source; only registered names are exercised here. -/
def isType (t : String) (v : JValue) : Bool :=
  if t == "array" then is_array v
  else if t == "boolean" then is_bool v
  else if t == "integer" then is_integer v
  else if t == "null" then is_null v
  else if t == "number" then is_number v
  else if t == "object" then is_object v
  else if t == "string" then is_string v
  else false

end Cfn

namespace Cfn

/-! ### ValidationError, from `src/cfnlint/jsonschema/exceptions.py` /
`jsonschema.exceptions.ValidationError`.

Fields follow the constructor arguments the source passes.  `none` in an
`Option` field models the jsonschema `_unset` sentinel (the engine only
fills fields that are still unset).  `context` holds the items of the
`context=` argument; since those come from generators that may yield
Python `None`, the element type is `Option VError`.  The `type_checker`
detail slot is not modelled (it carries no validation outcome). -/
inductive VError where
  | mk (message : String) (path schemaPath : List Seg)
       (validatorKw : Option String) (validatorValue instVal schemaVal : Option JValue)
       (context : List (Option VError))

/-- The message of an error. -/
def errMessage : VError → String
  | .mk m _ _ _ _ _ _ _ => m

/-- The instance path of an error (root to leaf). -/
def errPath : VError → List Seg
  | .mk _ p _ _ _ _ _ _ => p

/-- The schema path of an error. -/
def errSchemaPath : VError → List Seg
  | .mk _ _ sp _ _ _ _ _ => sp

/-- The keyword name recorded on an error. -/
def errValidatorKw : VError → Option String
  | .mk _ _ _ kw _ _ _ _ => kw

/-- The nested context of an error. -/
def errContext : VError → List (Option VError)
  | .mk _ _ _ _ _ _ _ ctx => ctx

/-- `ValidationError(message)`: an error with every other field unset. -/
def mkVE (m : String) : VError :=
  .mk m [] [] none none none none []

/-- `ValidationError(message, path=path)`. -/
def mkVEPath (m : String) (p : List Seg) : VError :=
  .mk m p [] none none none none []

/-- Fill an unset field, keeping an already-set one (`ValidationError._set`
only assigns attributes that are still the `_unset` sentinel). -/
def fillOpt (o : Option α) (d : α) : Option α :=
  match o with
  | none => some d
  | some x => some x

/-- `error.schema_path.appendleft(seg)`. -/
def prependSchemaPath (s : Seg) : VError → VError
  | .mk m p sp kw vv iv sv ctx => .mk m p (s :: sp) kw vv iv sv ctx

/-- The stamping step of `iter_errors` (`validator.py`): `error._set(...)`
with the keyword, argument, instance and schema, then prepend the keyword
name onto the schema path unless the keyword is `if` or `$ref`. -/
def stampError (k : String) (v inst sch : JValue) : VError → VError
  | .mk m p sp kw vv iv sv ctx =>
    let e := VError.mk m p sp (fillOpt kw k) (fillOpt vv v) (fillOpt iv inst) (fillOpt sv sch) ctx
    if k == "if" || k == "$ref" then e else prependSchemaPath (.key k) e

/-- `jsonschema._utils.extras_msg`: joined reprs plus a was/were verb. -/
def extras_msg (extras : List JValue) : String × String :=
  (String.intercalate ", " (pyReprList extras),
   if extras.length == 1 then "was" else "were")

/-- Stable insertion of a string into a sorted list (helper for `pySorted`). -/
def pyInsert (x : String) : List String → List String
  | [] => [x]
  | y :: ys => if x ≤ y then x :: y :: ys else y :: pyInsert x ys

/-- Python `sorted` on strings: stable, lexicographic by code point. -/
def pySorted : List String → List String
  | [] => []
  | x :: xs => pyInsert x (pySorted xs)

/-- The error `iter_errors` yields for the boolean schema `False`
(`validator.py`): message with the instance repr, empty paths, instance and
schema recorded. -/
def falseSchemaError (inst : JValue) : VError :=
  .mk ("False schema does not allow " ++ pyRepr inst) [] []
      none none (some inst) (some (.bool false)) []

/-! ### Reference resolver, modelling `jsonschema.RefResolver` as used by
`validator.py` and `_validators.py`.

The scope stack is a list whose first element is the outermost (first
pushed) scope: `push_scope` appends, matching the Python list the source
iterates directly in `dynamicRef` via `resolver._scopes_stack`.  Document
resolution is an association list keyed by the fully joined URI. -/
structure Resolver where
  scopes_stack : List String
  store : List (String × JValue)

/-- Characters before the first `#` of a URI. -/
def beforeHash : List Char → List Char
  | [] => []
  | c :: cs => if c == '#' then [] else c :: beforeHash cs

/-- Characters after the first `#` of a URI (empty when there is none). -/
def afterHash : List Char → List Char
  | [] => []
  | c :: cs => if c == '#' then cs else afterHash cs

/-- `urllib.parse.urldefrag`-style split at the first `#`. -/
def splitFrag (s : String) : String × String :=
  (⟨beforeHash s.data⟩, ⟨afterHash s.data⟩)

/-- Whether a URI is a fragment-only reference. -/
def startsHash (s : String) : Bool :=
  match s.data with
  | c :: _ => c == '#'
  | [] => false

/-- `urllib.parse.urljoin`, modelled for the URI shapes used here: a
fragment-only reference replaces the fragment of the base; anything else is
treated as absolute. -/
def urljoinM (base uri : String) : String :=
  if startsHash uri then (splitFrag base).1 ++ uri else uri

/-- `RefResolver.resolution_scope`: the innermost (last pushed) scope. -/
def Resolver.resolution_scope (r : Resolver) : String :=
  r.scopes_stack.getLast?.getD ""

/-- `RefResolver.push_scope`: join against the current scope and append. -/
def Resolver.push_scope (r : Resolver) (scope : String) : Resolver :=
  { r with scopes_stack := r.scopes_stack ++ [urljoinM r.resolution_scope scope] }

/-- `RefResolver.pop_scope`. -/
def Resolver.pop_scope (r : Resolver) : Resolver :=
  { r with scopes_stack := r.scopes_stack.dropLast }

/-- `RefResolver.resolve`: join the URI against the current scope and fetch
the document; `none` models an unresolvable reference (the library raises
`RefResolutionError` there). -/
def Resolver.resolve (r : Resolver) (uri : String) : Option (String × JValue) :=
  let url := urljoinM r.resolution_scope uri
  match jGet r.store url with
  | some doc => some (url, doc)
  | none => none

/-! ### The engine signature.

`iter_errors` of an evolved context, as a function of the shared resolver,
the schema and the instance.  The returned list holds the yielded items in
order; `none` stands for a yielded Python `None`. -/
abbrev IterFn := Resolver → JValue → JValue → List (Option VError) × Resolver

/-- `descend` from `validator.py`: iterate
`evolve(schema=schema).iter_errors(instance)`, prepend `path` and
`schema_path` onto each error, and re-yield.  The source executes a bare
`yield` statement (not `yield error`), so what it actually forwards is one
`None` placeholder per underlying error; the path mutations land on objects
that are then dropped. -/
def descendF (E : IterFn) (r : Resolver) (inst schema : JValue)
    (path schemaPath : Option Seg) : List (Option VError) × Resolver :=
  let p := E r schema inst
  (p.1.map (fun _ => none), p.2)

/-- `is_valid` from `validator.py`: `next(iter_errors(instance), None) is
None`.  Only the first yielded item is inspected. -/
def is_validS (E : IterFn) (r : Resolver) (schema inst : JValue) : Bool × Resolver :=
  let p := E r schema inst
  ((p.1.headD none).isNone, p.2)

/-- Run a step over each list element, threading the resolver and
concatenating the yielded items (the shape of every `for`-loop of yields in
the keyword validators). -/
def runList {α : Type} (step : α → Resolver → List (Option VError) × Resolver) :
    List α → Resolver → List (Option VError) × Resolver
  | [], r => ([], r)
  | a :: as, r =>
    let p := step a r
    let q := runList step as p.2
    (p.1 ++ q.1, q.2)

/-- `jsonschema._utils.ensure_list`. -/
def ensure_list (v : JValue) : List JValue :=
  match v with
  | .str _ => [v]
  | .arr xs => xs
  | _ => []

/-- Python `x is False` on a parsed value. -/
def isFalseLit : JValue → Bool
  | .bool false => true
  | _ => false

/-- The registered type name carried by a `type` keyword entry. -/
def asTypeName : JValue → String
  | .str s => s
  | _ => ""

/-- Keys of a parsed mapping, in insertion order. -/
def objKeys : JValue → List String
  | .obj kvs => kvs.map (fun kv => kv.1)
  | _ => []

/-- Key membership on a parsed mapping value. -/
def jHasKeyJ : JValue → String → Bool
  | .obj kvs, k => jHasKey kvs k
  | _, _ => false

/-- Whether the first list is a prefix of the second. -/
def isPrefixChars : List Char → List Char → Bool
  | [], _ => true
  | _ :: _, [] => false
  | a :: as, b :: bs => a == b && isPrefixChars as bs

/-- Whether the pattern occurs as a contiguous sublist. -/
def hasSubChars (p : List Char) : List Char → Bool
  | [] => p.isEmpty
  | c :: cs => isPrefixChars p (c :: cs) || hasSubChars p cs

/-- `re.search(pattern, s)`, modelled as literal substring search: adequate
for the metacharacter-free patterns appearing in this development. -/
def reSearch (pat s : String) : Bool :=
  if pat == "" then true else hasSubChars pat.data s.data

/-- Python `"|".join`, as applied to the `patternProperties` keys. -/
def joinBar : List String → String
  | [] => ""
  | [p] => p
  | p :: ps => p ++ "|" ++ joinBar ps

/-- `jsonschema._utils.find_additional_properties` (a copy also sits at the
bottom of `JsonSchema.py`): instance keys not claimed by `properties` and
not matched by the joined `patternProperties` alternation.  The source wraps
the result in `set(...)`; the model keeps instance order. -/
def find_additional_properties (ikvs : List (String × JValue)) (schema : JValue) : List String :=
  let props := (sGet schema "properties").getD (.obj [])
  let patterns := joinBar (objKeys ((sGet schema "patternProperties").getD (.obj [])))
  (ikvs.map (fun kv => kv.1)).filter
    (fun p => !(jHasKeyJ props p) && !(patterns != "" && reSearch patterns p))

end Cfn

namespace Cfn

namespace Validators

/-! Keyword validators from `src/cfnlint/jsonschema/_validators.py`, each a
function of the (lower-depth) engine `E`, the keyword argument, the
instance, the enclosing schema, and the shared resolver. -/

/-- `type`: `ensure_list` the argument and accept if any listed type name
matches; otherwise one error with the joined reprs. -/
def type (E : IterFn) (tS inst schema : JValue) (r : Resolver) :
    List (Option VError) × Resolver :=
  let ts := ensure_list tS
  if ts.any (fun t => isType (asTypeName t) inst) then ([], r)
  else ([some (mkVE (pyRepr inst ++ " is not of type " ++
        String.intercalate ", " (pyReprList ts)))], r)

/-- `prefixItems`: positional descent, zipping the instance with the prefix
schemas; both the instance path and the schema path get the index. -/
def prefixItems (E : IterFn) (pItems inst schema : JValue) (r : Resolver) :
    List (Option VError) × Resolver :=
  if !(isType "array" inst) then ([], r)
  else
    match inst, pItems with
    | .arr xs, .arr ps =>
      runList (fun (p : (Nat × JValue) × JValue) r =>
          descendF E r p.1.2 p.2 (some (.idx p.1.1)) (some (.idx p.1.1)))
        (xs.enum.zip ps) r
    | _, _ => ([], r)

/-- Modern `items`: elements past the `prefixItems` prefix are validated
against the single argument schema; a `False` argument with excess elements
yields one counting error instead. -/
def items (E : IterFn) (iS inst schema : JValue) (r : Resolver) :
    List (Option VError) × Resolver :=
  if !(isType "array" inst) then ([], r)
  else
    match inst with
    | .arr xs =>
      let pfxLen := jLen ((sGet schema "prefixItems").getD (.arr []))
      let total := xs.length
      if isFalseLit iS && decide (total > pfxLen) then
        ([some (mkVE ("Expected at most " ++ toString pfxLen ++
            " items, but found " ++ toString total))], r)
      else
        runList (fun (p : Nat × JValue) r =>
            descendF E r p.2 iS (some (.idx p.1)) none)
          (List.enumFrom pfxLen (xs.drop pfxLen)) r
    | _ => ([], r)

/-- `properties`: descend into each declared property present on the
instance, with the key on both paths. -/
def properties (E : IterFn) (props inst schema : JValue) (r : Resolver) :
    List (Option VError) × Resolver :=
  if !(isType "object" inst) then ([], r)
  else
    match props, inst with
    | .obj ps, .obj ikvs =>
      runList (fun (kv : String × JValue) r =>
          match jGet ikvs kv.1 with
          | some v => descendF E r v kv.2 (some (.key kv.1)) (some (.key kv.1))
          | none => ([], r)) ps r
    | _, _ => ([], r)

/-- `additionalProperties`: compute the unclaimed keys; a schema argument
validates each unclaimed value; a falsy argument yields one aggregated
error when `patternProperties` is present, and otherwise one error per
unclaimed key carrying that key as its path. -/
def additionalProperties (E : IterFn) (aP inst schema : JValue) (r : Resolver) :
    List (Option VError) × Resolver :=
  if !(isType "object" inst) then ([], r)
  else
    match inst with
    | .obj ikvs =>
      let extras := find_additional_properties ikvs schema
      if isType "object" aP then
        runList (fun (x : String) r =>
            match jGet ikvs x with
            | some v => descendF E r v aP (some (.key x)) none
            | none => ([], r)) extras r
      else if !(jTruthy aP) && !extras.isEmpty then
        if (sGet schema "patternProperties").isSome then
          let verb := if extras.length == 1 then "does" else "do"
          let joined := String.intercalate ", "
            ((pySorted extras).map (fun e => squote ++ e ++ squote))
          let pats := String.intercalate ", "
            ((pySorted (objKeys ((sGet schema "patternProperties").getD (.obj [])))).map
              (fun e => squote ++ e ++ squote))
          ([some (mkVE (joined ++ " " ++ verb ++
              " not match any of the regexes: " ++ pats))], r)
        else
          (extras.map (fun x => some (mkVEPath
              ("Additional properties are not allowed (" ++ x ++ " unexpected)")
              [.key x])), r)
      else ([], r)
    | _ => ([], r)

/-- The early-exit error of `contains`, created with `validator` and
`validator_value` already set to the `maxContains` facet. -/
def tooManyErr (maxC : Int) : VError :=
  .mk ("Too many items match the given schema (expected at most " ++
       toString maxC ++ ")")
      [] [] (some "maxContains") (some (.int maxC)) none none []

/-- The zero-matches error of `contains`. -/
def noneMatchErr (inst : JValue) : VError :=
  mkVE (pyRepr inst ++ " does not contain items matching the given schema")

/-- The too-few-matches error of `contains`, with the `minContains` facet. -/
def tooFewErr (minC cnt : Int) : VError :=
  .mk ("Too few items match the given schema (expected at least " ++
       toString minC ++ " but only " ++ toString cnt ++ " matched)")
      [] [] (some "minContains") (some (.int minC)) none none []

/-- The scanning loop of `contains`: walk the elements, counting matches;
return early with the too-many error as soon as the count exceeds
`maxContains`.  The first component is `some errs` on early return, `none`
when the scan finished; the second is the final count. -/
def containsScan (E : IterFn) (cS : JValue) (maxC : Int) :
    List JValue → Int → Resolver → Option (List (Option VError)) × Int × Resolver
  | [], m, r => (none, m, r)
  | x :: xs, m, r =>
    let p := is_validS E r cS x
    if p.1 then
      if m + 1 > maxC then (some [some (tooManyErr maxC)], m + 1, p.2)
      else containsScan E cS maxC xs (m + 1) p.2
    else containsScan E cS maxC xs m p.2

/-- `contains` with the `minContains` / `maxContains` facets read from the
enclosing schema (defaults 1 and the instance length). -/
def contains (E : IterFn) (cS inst schema : JValue) (r : Resolver) :
    List (Option VError) × Resolver :=
  if !(isType "array" inst) then ([], r)
  else
    match inst with
    | .arr xs =>
      let minC := getIntD schema "minContains" 1
      let maxC := getIntD schema "maxContains" (xs.length : Int)
      match containsScan E cS maxC xs 0 r with
      | (some es, _, r2) => (es, r2)
      | (none, m, r2) =>
        if m < minC then
          if m == 0 then ([some (noneMatchErr inst)], r2)
          else ([some (tooFewErr minC m)], r2)
        else ([], r2)
    | _ => ([], r)

/-- The first loop of `oneOf`: consume the enumerated branches until one
yields no items; accumulate the items of failing branches.  Returns the
accumulated items, `some (first_valid, remaining)` on break (`none` when
the iterator was exhausted), and the threaded resolver. -/
def oneOfScan (E : IterFn) (inst : JValue) :
    List (Nat × JValue) → Resolver →
    List (Option VError) × Option (JValue × List (Nat × JValue)) × Resolver
  | [], r => ([], none, r)
  | (i, sub) :: rest, r =>
    let p := descendF E r inst sub none (some (.idx i))
    if p.1.isEmpty then ([], some (sub, rest), p.2)
    else
      let q := oneOfScan E inst rest p.2
      (p.1 ++ q.1, q.2.1, q.2.2)

/-- The `more_valid` comprehension of `oneOf`: the remaining branches that
individually validate the instance. -/
def collectValid (E : IterFn) (inst : JValue) :
    List (Nat × JValue) → Resolver → List JValue × Resolver
  | [], r => ([], r)
  | (_, sub) :: rest, r =>
    let p := is_validS E r sub inst
    let q := collectValid E inst rest p.2
    (if p.1 then sub :: q.1 else q.1, q.2)

/-- `oneOf`: no error when exactly one branch passes; one context-carrying
error when none passes; one error naming every passing branch (later passes
first, then the first pass) when several pass.  The remaining branches are
still examined after the first pass because the comprehension consumes the
same iterator the loop broke out of. -/
def oneOf (E : IterFn) (oO inst schema : JValue) (r : Resolver) :
    List (Option VError) × Resolver :=
  match oO with
  | .arr subs =>
    let s := oneOfScan E inst subs.enum r
    match s.2.1 with
    | none =>
      ([some (VError.mk (pyRepr inst ++ " is not valid under any of the given schemas")
          [] [] none none none none s.1)], s.2.2)
    | some (firstValid, rest) =>
      let mv := collectValid E inst rest s.2.2
      if mv.1.isEmpty then ([], mv.2)
      else
        let named := mv.1 ++ [firstValid]
        ([some (mkVE (pyRepr inst ++ " is valid under each of " ++
            String.intercalate ", " (pyReprList named)))], mv.2)
  | _ => ([], r)

/-- `$ref`: resolve, push the resolved scope, descend into the resolved
schema, and pop on every exit (`try`/`finally` in the source).  An
unresolvable reference raises in the source before any push; that path is
modelled as an empty stream. -/
def ref (E : IterFn) (rS inst schema : JValue) (r : Resolver) :
    List (Option VError) × Resolver :=
  match rS with
  | .str uri =>
    match r.resolve uri with
    | none => ([], r)
    | some (scope, resolved) =>
      let r1 := r.push_scope scope
      let p := descendF E r1 inst resolved none none
      (p.1, p.2.pop_scope)
  | _ => ([], r)

/-- Whether a resolved schema declares a `$dynamicAnchor` equal to the
fragment (`"$dynamicAnchor" in subschema and fragment ==
subschema["$dynamicAnchor"]`). -/
def dynAnchorMatches (sub : JValue) (frag : String) : Bool :=
  match sGet sub "$dynamicAnchor" with
  | some (.str a) => a == frag
  | _ => false

/-- The scope-stack walk of `dynamicRef`: `for url in
resolver._scopes_stack`, i.e. from the first-pushed (outermost) scope
onward.  Each candidate is resolved inside a `resolving` context (push,
test, pop); the walk stops at the first candidate whose schema declares the
matching dynamic anchor, descending there.  `none` in the first component
means the loop exhausted the stack without a break (the `for`/`else`
fallback applies); an unresolvable candidate raises in the source and is
modelled as an empty stream. -/
def dynamicRefLoop (E : IterFn) (dR frag : String) (inst : JValue) :
    List String → Resolver → Option (List (Option VError)) × Resolver
  | [], r => (none, r)
  | url :: rest, r =>
    let lookupUrl := urljoinM url dR
    match r.resolve lookupUrl with
    | none => (some [], r)
    | some (u2, sub) =>
      let r1 := r.push_scope u2
      if dynAnchorMatches sub frag then
        let p := descendF E r1 inst sub none none
        (some p.1, p.2.pop_scope)
      else
        dynamicRefLoop E dR frag inst rest r1.pop_scope

/-- `$dynamicRef`: split off the fragment, walk the current scope stack in
list order, and descend at the first matching dynamic anchor; fall back to
ordinary single-shot resolution when no scope matches. -/
def dynamicRef (E : IterFn) (dR inst schema : JValue) (r : Resolver) :
    List (Option VError) × Resolver :=
  match dR with
  | .str dRs =>
    let frag := (splitFrag dRs).2
    let res := dynamicRefLoop E dRs frag inst r.scopes_stack r
    match res.1 with
    | some es => (es, res.2)
    | none =>
      match res.2.resolve dRs with
      | none => ([], res.2)
      | some (u2, sub) =>
        let r3 := res.2.push_scope u2
        let p := descendF E r3 inst sub none none
        (p.1, p.2.pop_scope)
  | _ => ([], r)

/-- `dependencies_draft4_draft6_draft7` from
`src/cfnlint/jsonschema/_validators.py`: the function body consists solely
of its docstring.  A Python function without a `yield` returns `None` when
called, which is what `none` models here. -/
def dependencies_draft4_draft6_draft7 (E : IterFn) (deps inst schema : JValue)
    (r : Resolver) : Option (List (Option VError) × Resolver) :=
  none

/-- The per-key collection loop of `unevaluatedProperties`: for each
instance key outside the evaluated set, iterate the descent into the
argument schema, appending the key once per yielded item. -/
def uPropsScan (E : IterFn) (uProps : JValue) :
    List (String × JValue) → List String → Resolver → List String × Resolver
  | [], _, r => ([], r)
  | (k, v) :: rest, evalKeys, r =>
    if evalKeys.contains k then uPropsScan E uProps rest evalKeys r
    else
      let p := descendF E r v uProps (some (.key k)) (some (.key k))
      let q := uPropsScan E uProps rest evalKeys p.2
      (p.1.map (fun _ => k) ++ q.1, q.2)

/-- `unevaluatedProperties` from `_validators.py`, with the evaluated-key
set abstracted: the source obtains it from
`jsonschema._utils.find_evaluated_property_keys_by_schema`, an external
collaborator, passed here as `evalKeys`.  A falsy argument yields one
aggregated not-allowed error naming every collected key; a schema argument
yields one aggregated not-valid error naming the keys whose descent
produced items. -/
def unevaluatedProperties (E : IterFn) (evalKeys : List String)
    (uProps inst schema : JValue) (r : Resolver) :
    List (Option VError) × Resolver :=
  if !(isType "object" inst) then ([], r)
  else
    match inst with
    | .obj ikvs =>
      let s := uPropsScan E uProps ikvs evalKeys r
      if s.1.isEmpty then ([], s.2)
      else
        let em := extras_msg (s.1.map .str)
        if isFalseLit uProps then
          ([some (mkVE ("Unevaluated properties are not allowed (" ++
              em.1 ++ " " ++ em.2 ++ " unexpected)"))], s.2)
        else
          ([some (mkVE ("Unevaluated properties are not valid under the given schema (" ++
              em.1 ++ " " ++ em.2 ++ " unevaluated and invalid)"))], s.2)
    | _ => ([], r)

end Validators

namespace Legacy

/-- `dependencies_draft4_draft6_draft7` from
`src/cfnlint/schema/_legacy_validators.py`: array-valued dependencies
require each listed key on the instance; schema-valued dependencies descend
into the dependency with the property on the schema path. -/
def dependencies_draft4_draft6_draft7 (E : IterFn) (deps inst schema : JValue)
    (r : Resolver) : List (Option VError) × Resolver :=
  if !(isType "object" inst) then ([], r)
  else
    match deps, inst with
    | .obj ds, .obj ikvs =>
      runList (fun (d : String × JValue) r =>
          if !(jHasKey ikvs d.1) then ([], r)
          else if isType "array" d.2 then
            match d.2 with
            | .arr deplist =>
              (deplist.filterMap (fun e =>
                  if !(match e with | .str s => jHasKey ikvs s | _ => false) then
                    some (some (mkVE (pyRepr e ++ " is a dependency of " ++
                      squote ++ d.1 ++ squote)))
                  else none), r)
            | _ => ([], r)
          else descendF E r inst d.2 none (some (.key d.1))) ds r
    | _, _ => ([], r)

end Legacy

end Cfn

namespace Cfn

/-- `_id_of` from `validator.py`, the default `id_of` of `create`: the `$id`
of a mapping schema (empty for booleans and schemas without a string id). -/
def id_of (schema : JValue) : String :=
  match schema with
  | .bool _ => ""
  | _ =>
    match sGet schema "$id" with
    | some (.str s) => s
    | _ => ""

/-- The signature of a dispatch-table entry: the result is `none` when the
Python callable returned `None` instead of a generator (which `iter_errors`
normalises with `or ()`). -/
abbrev KwFn :=
  IterFn → JValue → JValue → JValue → Resolver → Option (List (Option VError) × Resolver)

/-- `VALIDATORS.get`: the dispatch table of this development, assembling the
cited keyword validators of `_validators.py` under a modern-draft keyword
set (the spec's `items`/`prefixItems` shape).  `dependencies` is wired to
the `_validators.py` copy, whose call returns `None`.  Unregistered
keywords resolve to `none` and are skipped by the engine. -/
def VALIDATORS_get (k : String) : Option KwFn :=
  match k with
  | "type" => some (fun E v i s r => some (Validators.type E v i s r))
  | "items" => some (fun E v i s r => some (Validators.items E v i s r))
  | "prefixItems" => some (fun E v i s r => some (Validators.prefixItems E v i s r))
  | "properties" => some (fun E v i s r => some (Validators.properties E v i s r))
  | "additionalProperties" => some (fun E v i s r => some (Validators.additionalProperties E v i s r))
  | "contains" => some (fun E v i s r => some (Validators.contains E v i s r))
  | "oneOf" => some (fun E v i s r => some (Validators.oneOf E v i s r))
  | "$ref" => some (fun E v i s r => some (Validators.ref E v i s r))
  | "$dynamicRef" => some (fun E v i s r => some (Validators.dynamicRef E v i s r))
  | "dependencies" => some (fun E v i s r => Validators.dependencies_draft4_draft6_draft7 E v i s r)
  | _ => none

/-- The per-item stamping loop of `iter_errors`: a yielded `None` is
skipped with `continue`; every other yielded error is stamped with the
keyword metadata and, unless the keyword is `if` or `$ref`, gets the
keyword name prepended onto its schema path. -/
def stampAll (k : String) (v inst schema : JValue) :
    List (Option VError) → List (Option VError)
  | [] => []
  | none :: es => stampAll k v inst schema es
  | some e :: es => some (stampError k v inst schema e) :: stampAll k v inst schema es

/-- The keyword loop of `iter_errors`: for each applicable `(keyword,
argument)` pair, look up a validator (silently skipping unregistered
keywords), normalise a `None` return to no errors, and yield the stamped
items. -/
def kwLoop (E : IterFn) (inst schema : JValue) :
    List (String × JValue) → Resolver → List (Option VError) × Resolver
  | [], r => ([], r)
  | (k, v) :: rest, r =>
    match VALIDATORS_get k with
    | none => kwLoop E inst schema rest r
    | some f =>
      let res := (f E v inst schema r).getD ([], r)
      let q := kwLoop E inst schema rest res.2
      (stampAll k v inst schema res.1 ++ q.1, q.2)

/-- One unfolding of `iter_errors` from `validator.py`: boolean schemas
short-circuit (`True` yields nothing, `False` yields one generic error);
otherwise the scope id, when present, is pushed before the keyword loop and
popped on every exit (`try`/`finally`).  The applicable keywords are the
schema's entries in natural order (the default `applicable_validators`).  A
schema that is neither a boolean nor a mapping has no `.items()` and raises
in the source; that path is modelled as an empty stream. -/
def iterErrorsF (E : IterFn) (r : Resolver) (schema inst : JValue) :
    List (Option VError) × Resolver :=
  match schema with
  | .bool true => ([], r)
  | .bool false => ([some (falseSchemaError inst)], r)
  | .obj kvs =>
    let scope := id_of schema
    if scope == "" then kwLoop E inst schema kvs r
    else
      let p := kwLoop E inst schema kvs (r.push_scope scope)
      (p.1, p.2.pop_scope)
  | _ => ([], r)

/-- The engine at a given recursion depth: each nested validation uses the
engine one level down.  Depth 0 still decides boolean schemas (they recurse
into nothing); keyword dispatch needs at least depth 1.  All claims are
stated either for every depth or at a depth visibly large enough for the
concrete input. -/
def engineAt : Nat → IterFn
  | 0 => fun r schema inst =>
    match schema with
    | .bool true => ([], r)
    | .bool false => ([some (falseSchemaError inst)], r)
    | _ => ([], r)
  | n + 1 => iterErrorsF (engineAt n)

end Cfn

namespace Cfn

/-! ### State preservation.

Every engine entry point restores the resolver it was given: scope pushes
and pops balance on every path of the model (the `try`/`finally` blocks of
the source are rendered as unconditional pops). -/

/-- The engine returns the resolver it was handed. -/
def PreservesE (E : IterFn) : Prop :=
  ∀ r schema inst, (E r schema inst).2 = r

theorem pop_push_scope (r : Resolver) (s : String) : (r.push_scope s).pop_scope = r := by
  cases r with
  | mk stack store => simp [Resolver.push_scope, Resolver.pop_scope]

theorem descendF_state {E : IterFn} (hE : PreservesE E) (r : Resolver)
    (inst schema : JValue) (p sp : Option Seg) :
    (descendF E r inst schema p sp).2 = r := by
  simp only [descendF]
  exact hE r schema inst

theorem is_validS_state {E : IterFn} (hE : PreservesE E) (r : Resolver)
    (schema inst : JValue) : (is_validS E r schema inst).2 = r := by
  simp only [is_validS]
  exact hE r schema inst

theorem runList_state {α : Type} {step : α → Resolver → List (Option VError) × Resolver}
    (h : ∀ a r, (step a r).2 = r) :
    ∀ (as : List α) (r : Resolver), (runList step as r).2 = r := by
  intro as
  induction as with
  | nil => intro r; rfl
  | cons a as ih =>
    intro r
    simp only [runList]
    rw [ih, h]

theorem runList_out {α : Type} {step : α → Resolver → List (Option VError) × Resolver}
    (h : ∀ a r, (step a r).2 = r) :
    ∀ (as : List α) (r : Resolver),
      (runList step as r).1 = (as.map (fun a => (step a r).1)).flatten := by
  intro as
  induction as with
  | nil => intro r; rfl
  | cons a as ih =>
    intro r
    simp only [runList, List.map, List.flatten_cons]
    rw [h, ih]

end Cfn

namespace Cfn

theorem type_state (E : IterFn) (tS inst schema : JValue) (r : Resolver) :
    (Validators.type E tS inst schema r).2 = r := by
  unfold Validators.type
  dsimp only
  split <;> rfl

theorem prefixItems_state {E : IterFn} (hE : PreservesE E) (pItems inst schema : JValue)
    (r : Resolver) : (Validators.prefixItems E pItems inst schema r).2 = r := by
  unfold Validators.prefixItems
  split
  · rfl
  · split
    · exact runList_state (fun a r => descendF_state hE r _ _ _ _) _ r
    · rfl

theorem items_state {E : IterFn} (hE : PreservesE E) (iS inst schema : JValue)
    (r : Resolver) : (Validators.items E iS inst schema r).2 = r := by
  cases inst <;> try rfl
  case arr xs =>
  unfold Validators.items
  dsimp only
  repeat' split
  all_goals first
    | rfl
    | exact runList_state (fun a r => descendF_state hE r _ _ _ _) _ _

theorem properties_state {E : IterFn} (hE : PreservesE E) (props inst schema : JValue)
    (r : Resolver) : (Validators.properties E props inst schema r).2 = r := by
  unfold Validators.properties
  split
  · rfl
  · split
    · refine runList_state (fun a r => ?_) _ r
      cases jGet _ a.1 with
      | none => rfl
      | some v => exact descendF_state hE r _ _ _ _
    · rfl

theorem additionalProperties_state {E : IterFn} (hE : PreservesE E)
    (aP inst schema : JValue) (r : Resolver) :
    (Validators.additionalProperties E aP inst schema r).2 = r := by
  cases inst <;> try rfl
  case obj ikvs =>
  unfold Validators.additionalProperties
  dsimp only
  repeat' split
  all_goals try rfl
  all_goals refine runList_state (fun a r => ?_) _ _
  all_goals
    cases jGet ikvs a with
    | none => rfl
    | some v => exact descendF_state hE r _ _ _ _

theorem containsScan_state {E : IterFn} (hE : PreservesE E) (cS : JValue) (maxC : Int) :
    ∀ (xs : List JValue) (m : Int) (r : Resolver),
      (Validators.containsScan E cS maxC xs m r).2.2 = r := by
  intro xs
  induction xs with
  | nil => intro m r; rfl
  | cons x xs ih =>
    intro m r
    simp only [Validators.containsScan]
    rw [is_validS_state hE]
    split
    · split
      · rfl
      · exact ih (m + 1) r
    · exact ih m r

theorem contains_state {E : IterFn} (hE : PreservesE E) (cS inst schema : JValue)
    (r : Resolver) : (Validators.contains E cS inst schema r).2 = r := by
  cases inst <;> try rfl
  case arr xs =>
  have hs := containsScan_state hE cS (getIntD schema "maxContains" (xs.length : Int)) xs 0 r
  unfold Validators.contains
  dsimp only
  split
  · rfl
  · rcases hscan : Validators.containsScan E cS
      (getIntD schema "maxContains" (xs.length : Int)) xs 0 r with ⟨o, m, r2⟩
    rw [hscan] at hs
    cases o with
    | some es => exact hs
    | none =>
      dsimp only
      split
      · split
        · exact hs
        · exact hs
      · exact hs

theorem oneOfScan_state {E : IterFn} (hE : PreservesE E) (inst : JValue) :
    ∀ (subs : List (Nat × JValue)) (r : Resolver),
      (Validators.oneOfScan E inst subs r).2.2 = r := by
  intro subs
  induction subs with
  | nil => intro r; rfl
  | cons p rest ih =>
    intro r
    obtain ⟨i, sub⟩ := p
    simp only [Validators.oneOfScan]
    rw [descendF_state hE]
    split
    · rfl
    · exact ih r

theorem collectValid_state {E : IterFn} (hE : PreservesE E) (inst : JValue) :
    ∀ (subs : List (Nat × JValue)) (r : Resolver),
      (Validators.collectValid E inst subs r).2 = r := by
  intro subs
  induction subs with
  | nil => intro r; rfl
  | cons p rest ih =>
    intro r
    obtain ⟨i, sub⟩ := p
    simp only [Validators.collectValid]
    rw [is_validS_state hE, ih]

theorem oneOf_state {E : IterFn} (hE : PreservesE E) (oO inst schema : JValue)
    (r : Resolver) : (Validators.oneOf E oO inst schema r).2 = r := by
  cases oO <;> try rfl
  case arr subs =>
  have hs := oneOfScan_state hE inst subs.enum r
  unfold Validators.oneOf
  dsimp only
  rcases hscan : Validators.oneOfScan E inst subs.enum r with ⟨acc, ob, r2⟩
  rw [hscan] at hs
  dsimp only at hs ⊢
  cases ob with
  | none => exact hs
  | some fv =>
    obtain ⟨firstValid, rest⟩ := fv
    dsimp only
    split <;> exact (collectValid_state hE inst rest r2).trans hs

theorem ref_state {E : IterFn} (hE : PreservesE E) (rS inst schema : JValue)
    (r : Resolver) : (Validators.ref E rS inst schema r).2 = r := by
  unfold Validators.ref
  split
  · split
    · rfl
    · rename_i scope resolved heq
      simp only []
      rw [descendF_state hE]
      exact pop_push_scope r scope
  · rfl

theorem dynamicRefLoop_state {E : IterFn} (hE : PreservesE E) (dR frag : String)
    (inst : JValue) :
    ∀ (urls : List String) (r : Resolver),
      (Validators.dynamicRefLoop E dR frag inst urls r).2 = r := by
  intro urls
  induction urls with
  | nil => intro r; rfl
  | cons url rest ih =>
    intro r
    simp only [Validators.dynamicRefLoop]
    split
    · rfl
    · rename_i u2 sub heq
      split
      · rw [descendF_state hE]
        exact pop_push_scope r u2
      · rw [pop_push_scope r u2]
        exact ih r

theorem dynamicRef_state {E : IterFn} (hE : PreservesE E) (dR inst schema : JValue)
    (r : Resolver) : (Validators.dynamicRef E dR inst schema r).2 = r := by
  cases dR <;> try rfl
  case str dRs =>
  have hs := dynamicRefLoop_state hE dRs (splitFrag dRs).2 inst r.scopes_stack r
  unfold Validators.dynamicRef
  dsimp only
  rcases hloop : Validators.dynamicRefLoop E dRs (splitFrag dRs).2 inst r.scopes_stack r
    with ⟨o, r2⟩
  rw [hloop] at hs
  dsimp only at hs ⊢
  cases o with
  | some es => exact hs
  | none =>
    subst hs
    dsimp only
    split
    · rfl
    · rename_i u2 sub heq
      dsimp only
      rw [descendF_state hE]
      exact pop_push_scope r2 u2

end Cfn

namespace Cfn

theorem validators_state {E : IterFn} (hE : PreservesE E) (k : String) (f : KwFn)
    (hf : VALIDATORS_get k = some f) (v inst schema : JValue) (r : Resolver) :
    ((f E v inst schema r).getD ([], r)).2 = r := by
  unfold VALIDATORS_get at hf
  split at hf
  · injection hf with hf; subst hf; exact type_state E v inst schema r
  · injection hf with hf; subst hf; exact items_state hE v inst schema r
  · injection hf with hf; subst hf; exact prefixItems_state hE v inst schema r
  · injection hf with hf; subst hf; exact properties_state hE v inst schema r
  · injection hf with hf; subst hf; exact additionalProperties_state hE v inst schema r
  · injection hf with hf; subst hf; exact contains_state hE v inst schema r
  · injection hf with hf; subst hf; exact oneOf_state hE v inst schema r
  · injection hf with hf; subst hf; exact ref_state hE v inst schema r
  · injection hf with hf; subst hf; exact dynamicRef_state hE v inst schema r
  · injection hf with hf; subst hf; rfl
  · exact Option.noConfusion hf

theorem kwLoop_state {E : IterFn} (hE : PreservesE E) (inst schema : JValue) :
    ∀ (kvs : List (String × JValue)) (r : Resolver),
      (kwLoop E inst schema kvs r).2 = r := by
  intro kvs
  induction kvs with
  | nil => intro r; rfl
  | cons kv rest ih =>
    intro r
    obtain ⟨k, v⟩ := kv
    simp only [kwLoop]
    cases hf : VALIDATORS_get k with
    | none => exact ih r
    | some f =>
      dsimp only
      rw [ih, validators_state hE k f hf]

theorem iterErrorsF_state {E : IterFn} (hE : PreservesE E) :
    PreservesE (iterErrorsF E) := by
  intro r schema inst
  cases schema <;> try rfl
  case bool b => cases b <;> rfl
  case obj kvs =>
  unfold iterErrorsF
  dsimp only
  split
  · exact kwLoop_state hE inst (.obj kvs) kvs r
  · rw [kwLoop_state hE inst (.obj kvs) kvs (r.push_scope (id_of (.obj kvs)))]
    exact pop_push_scope r _

/-- Scope pushes and pops balance across every engine invocation: the
resolver comes back exactly as it went in, at every recursion depth. -/
theorem engineAt_state : ∀ n, PreservesE (engineAt n) := by
  intro n
  induction n with
  | zero =>
    intro r schema inst
    cases schema <;> try rfl
    case bool b => cases b <;> rfl
  | succ n ih => exact iterErrorsF_state ih

/-- The engine on the boolean schema `True`. -/
theorem engine_true : ∀ n r inst, engineAt n r (.bool true) inst = ([], r) := by
  intro n r inst
  cases n <;> rfl

/-- The engine on the boolean schema `False`. -/
theorem engine_false : ∀ n r inst,
    engineAt n r (.bool false) inst = ([some (falseSchemaError inst)], r) := by
  intro n r inst
  cases n <;> rfl

/-! ### The stamping loop, reorganised (for claim C10). -/

/-- The contribution of one keyword to `iter_errors`, written in the
filter-then-stamp form: the `None` items are removed first, and only the
surviving errors are stamped. -/
def kwContrib (E : IterFn) (inst schema : JValue) (k : String) (v : JValue)
    (r : Resolver) : List (Option VError) × Resolver :=
  match VALIDATORS_get k with
  | none => ([], r)
  | some f =>
    let res := (f E v inst schema r).getD ([], r)
    ((res.1.filterMap id).map (fun e => some (stampError k v inst schema e)), res.2)

/-- The keyword loop re-expressed through `kwContrib`. -/
def kwLoopSpec (E : IterFn) (inst schema : JValue) :
    List (String × JValue) → Resolver → List (Option VError) × Resolver
  | [], r => ([], r)
  | (k, v) :: rest, r =>
    let p := kwContrib E inst schema k v r
    let q := kwLoopSpec E inst schema rest p.2
    (p.1 ++ q.1, q.2)

theorem stampAll_filterMap (k : String) (v inst schema : JValue) :
    ∀ es : List (Option VError),
      stampAll k v inst schema es
        = (es.filterMap id).map (fun e => some (stampError k v inst schema e)) := by
  intro es
  induction es with
  | nil => rfl
  | cons e es ih =>
    cases e with
    | none => simpa [stampAll] using ih
    | some e => simp [stampAll, ih]

theorem stampAll_allSome (k : String) (v inst schema : JValue) :
    ∀ es : List (Option VError),
      (stampAll k v inst schema es).all Option.isSome = true := by
  intro es
  induction es with
  | nil => rfl
  | cons e es ih =>
    cases e with
    | none => simpa [stampAll] using ih
    | some e => simp [stampAll, ih]

theorem kwLoop_spec_eq (E : IterFn) (inst schema : JValue) :
    ∀ (kvs : List (String × JValue)) (r : Resolver),
      kwLoop E inst schema kvs r = kwLoopSpec E inst schema kvs r := by
  intro kvs
  induction kvs with
  | nil => intro r; rfl
  | cons kv rest ih =>
    intro r
    obtain ⟨k, v⟩ := kv
    simp only [kwLoop, kwLoopSpec, kwContrib]
    cases hf : VALIDATORS_get k with
    | none => exact ih _
    | some f =>
      dsimp only
      rw [ih, stampAll_filterMap]

theorem kwLoop_allSome (E : IterFn) (inst schema : JValue) :
    ∀ (kvs : List (String × JValue)) (r : Resolver),
      ((kwLoop E inst schema kvs r).1.all Option.isSome) = true := by
  intro kvs
  induction kvs with
  | nil => intro r; rfl
  | cons kv rest ih =>
    intro r
    obtain ⟨k, v⟩ := kv
    simp only [kwLoop]
    cases hf : VALIDATORS_get k with
    | none => exact ih r
    | some f =>
      dsimp only
      rw [List.all_append]
      exact Bool.and_eq_true_iff.mpr ⟨stampAll_allSome k v inst schema _, ih _⟩

/-- `iter_errors` never yields `None` at any depth. -/
theorem engine_allSome : ∀ n r schema inst,
    ((engineAt n r schema inst).1.all Option.isSome) = true := by
  intro n r schema inst
  cases n with
  | zero =>
    cases schema <;> try rfl
    case bool b => cases b <;> rfl
  | succ n =>
    show ((iterErrorsF (engineAt n) r schema inst).1.all Option.isSome) = true
    cases schema <;> try rfl
    case bool b => cases b <;> rfl
    case obj kvs =>
    unfold iterErrorsF
    dsimp only
    split
    · exact kwLoop_allSome (engineAt n) inst (.obj kvs) kvs r
    · exact kwLoop_allSome (engineAt n) inst (.obj kvs) kvs _

end Cfn

namespace Cfn

/-! ### Characterisation of `contains` (claim C5). -/

/-- Element validity under the engine at a fixed resolver (what
`evolve(schema=cS).is_valid(each)` computes, the state being restored by
every call). -/
def validB (E : IterFn) (r : Resolver) (cS x : JValue) : Bool :=
  ((E r cS x).1.headD none).isNone

/-- The number of elements of `xs` valid under the contains schema. -/
def countValid (E : IterFn) (r : Resolver) (cS : JValue) (xs : List JValue) : Int :=
  ((xs.filter (fun x => validB E r cS x)).length : Int)

theorem is_validS_eq {E : IterFn} (hE : PreservesE E) (r : Resolver) (cS x : JValue) :
    is_validS E r cS x = (validB E r cS x, r) := by
  simp only [is_validS, validB]
  rw [hE r cS x]

theorem countValid_cons (E : IterFn) (r : Resolver) (cS x : JValue) (xs : List JValue) :
    countValid E r cS (x :: xs)
      = countValid E r cS xs + (if validB E r cS x then 1 else 0) := by
  simp only [countValid, List.filter]
  cases hb : validB E r cS x <;> simp <;> omega

theorem countValid_nonneg (E : IterFn) (r : Resolver) (cS : JValue) (xs : List JValue) :
    0 ≤ countValid E r cS xs := by
  simp [countValid]

theorem containsScan_no_overflow {E : IterFn} (hE : PreservesE E) (cS : JValue)
    (maxC : Int) :
    ∀ (xs : List JValue) (m : Int) (r : Resolver),
      m + countValid E r cS xs ≤ maxC →
      Validators.containsScan E cS maxC xs m r = (none, m + countValid E r cS xs, r) := by
  intro xs
  induction xs with
  | nil =>
    intro m r h
    simp [Validators.containsScan, countValid]
  | cons x xs ih =>
    intro m r h
    have hcc := countValid_cons E r cS x xs
    have hnn := countValid_nonneg E r cS xs
    simp only [Validators.containsScan]
    simp only [is_validS_eq hE]
    by_cases hb : validB E r cS x = true
    · rw [if_pos hb] at hcc
      rw [if_pos hb, if_neg (show ¬ m + 1 > maxC by omega)]
      rw [ih (m + 1) r (by omega)]
      refine congrArg (fun t => ((none : Option (List (Option VError))), t, r)) ?_
      omega
    · rw [if_neg hb] at hcc
      rw [if_neg hb]
      rw [ih m r (by omega)]
      refine congrArg (fun t => ((none : Option (List (Option VError))), t, r)) ?_
      omega

theorem containsScan_overflow {E : IterFn} (hE : PreservesE E) (cS : JValue)
    (maxC : Int) :
    ∀ (xs : List JValue) (m : Int) (r : Resolver),
      m ≤ maxC → m + countValid E r cS xs > maxC →
      (Validators.containsScan E cS maxC xs m r).1
        = some [some (Validators.tooManyErr maxC)] := by
  intro xs
  induction xs with
  | nil =>
    intro m r hm h
    simp [countValid] at h
    omega
  | cons x xs ih =>
    intro m r hm h
    have hcc := countValid_cons E r cS x xs
    have hnn := countValid_nonneg E r cS xs
    simp only [Validators.containsScan]
    simp only [is_validS_eq hE]
    by_cases hb : validB E r cS x = true
    · rw [if_pos hb] at hcc
      rw [if_pos hb]
      by_cases hfire : m + 1 > maxC
      · rw [if_pos hfire]
      · rw [if_neg hfire]
        exact ih (m + 1) r (by omega) (by omega)
    · rw [if_neg hb] at hcc
      rw [if_neg hb]
      exact ih m r hm (by omega)

/-- The number of elements the `contains` scan examines before firing the
too-many early return (counting from a running match count `m`). -/
def haltLen (E : IterFn) (r : Resolver) (cS : JValue) (maxC : Int) :
    List JValue → Int → Nat
  | [], _ => 0
  | x :: xs, m =>
    if validB E r cS x then
      if m + 1 > maxC then 1 else 1 + haltLen E r cS maxC xs (m + 1)
    else 1 + haltLen E r cS maxC xs m

theorem containsScan_halt {E : IterFn} (hE : PreservesE E) (cS : JValue) (maxC : Int) :
    ∀ (xs : List JValue) (m : Int) (r : Resolver) (ys : List JValue),
      m ≤ maxC → m + countValid E r cS xs > maxC →
      Validators.containsScan E cS maxC (xs.take (haltLen E r cS maxC xs m) ++ ys) m r
        = Validators.containsScan E cS maxC xs m r := by
  intro xs
  induction xs with
  | nil =>
    intro m r ys hm h
    simp [countValid] at h
    omega
  | cons x xs ih =>
    intro m r ys hm h
    have hcc := countValid_cons E r cS x xs
    have hnn := countValid_nonneg E r cS xs
    by_cases hb : validB E r cS x = true
    · rw [if_pos hb] at hcc
      by_cases hfire : m + 1 > maxC
      · have hl : haltLen E r cS maxC (x :: xs) m = 1 := by
          simp only [haltLen]
          rw [if_pos hb, if_pos hfire]
        rw [hl]
        simp only [List.take_succ_cons, List.take_zero, List.cons_append, List.nil_append]
        simp only [Validators.containsScan]
        simp only [is_validS_eq hE]
        simp only [if_pos hb, if_pos hfire]
      · have hl : haltLen E r cS maxC (x :: xs) m
            = 1 + haltLen E r cS maxC xs (m + 1) := by
          simp only [haltLen]
          rw [if_pos hb, if_neg hfire]
        rw [hl, Nat.add_comm 1 (haltLen E r cS maxC xs (m + 1))]
        simp only [List.take_succ_cons, List.cons_append]
        simp only [Validators.containsScan]
        simp only [is_validS_eq hE]
        simp only [if_pos hb, if_neg hfire]
        exact ih (m + 1) r ys (by omega) (by omega)
    · rw [if_neg hb] at hcc
      have hl : haltLen E r cS maxC (x :: xs) m = 1 + haltLen E r cS maxC xs m := by
        simp only [haltLen]
        rw [if_neg hb]
      rw [hl, Nat.add_comm 1 (haltLen E r cS maxC xs m)]
      simp only [List.take_succ_cons, List.cons_append]
      simp only [Validators.containsScan]
      simp only [is_validS_eq hE]
      simp only [if_neg hb]
      exact ih m r ys hm (by omega)

end Cfn

namespace Cfn

/-! ### Characterisation of `$dynamicRef` (claim C2). -/

/-- The first scope, scanning a candidate list in order (for the scope
stack: from the first-pushed, outermost scope onward), whose resolved
schema declares the matching dynamic anchor. -/
def dynFirstMatch (r : Resolver) (dR frag : String) :
    List String → Option (String × JValue)
  | [] => none
  | url :: rest =>
    match r.resolve (urljoinM url dR) with
    | some (u2, sub) =>
      if Validators.dynAnchorMatches sub frag then some (u2, sub)
      else dynFirstMatch r dR frag rest
    | none => dynFirstMatch r dR frag rest

theorem dynamicRefLoop_firstMatch {E : IterFn} (hE : PreservesE E) (dR frag : String)
    (inst : JValue) :
    ∀ (urls : List String) (r : Resolver),
      (∀ u ∈ urls, (r.resolve (urljoinM u dR)).isSome = true) →
      Validators.dynamicRefLoop E dR frag inst urls r =
        (match dynFirstMatch r dR frag urls with
         | some (u2, sub) =>
           (some (descendF E (r.push_scope u2) inst sub none none).1,
            ((descendF E (r.push_scope u2) inst sub none none).2).pop_scope)
         | none => (none, r)) := by
  intro urls
  induction urls with
  | nil => intro r h; rfl
  | cons url rest ih =>
    intro r h
    have hu : (r.resolve (urljoinM url dR)).isSome = true :=
      h url (List.mem_cons_self url rest)
    simp only [Validators.dynamicRefLoop, dynFirstMatch]
    cases hres : r.resolve (urljoinM url dR) with
    | none => rw [hres] at hu; exact Bool.noConfusion hu
    | some p =>
      obtain ⟨u2, sub⟩ := p
      dsimp only
      by_cases ha : Validators.dynAnchorMatches sub frag = true
      · rw [if_pos ha, if_pos ha]
      · rw [if_neg ha, if_neg ha, pop_push_scope r u2]
        exact ih r (fun u hu2 => h u (List.mem_cons_of_mem url hu2))

end Cfn

namespace Cfn

/-! ### Characterisation of the `unevaluatedProperties` collection loop and
the unclaimed-key errors (claim C3). -/

theorem isType_object_obj (kvs : List (String × JValue)) :
    isType "object" (JValue.obj kvs) = true := rfl

theorem descend_false (n : Nat) (r : Resolver) (v : JValue) (p sp : Option Seg) :
    descendF (engineAt n) r v (.bool false) p sp = ([none], r) := by
  simp [descendF, engine_false]

theorem uPropsScan_out {E : IterFn} (hE : PreservesE E) (uProps : JValue) :
    ∀ (ikvs : List (String × JValue)) (evalKeys : List String) (r : Resolver),
      Validators.uPropsScan E uProps ikvs evalKeys r =
        (((ikvs.filter (fun kv => !(evalKeys.contains kv.1))).map
            (fun kv => (descendF E r kv.2 uProps (some (.key kv.1)) (some (.key kv.1))).1.map
              (fun _ => kv.1))).flatten, r) := by
  intro ikvs
  induction ikvs with
  | nil => intro ek r; rfl
  | cons kv rest ih =>
    intro ek r
    obtain ⟨k, v⟩ := kv
    simp only [Validators.uPropsScan, List.filter_cons]
    by_cases hc : ek.contains k = true
    · simp only [hc, Bool.not_true, Bool.false_eq_true, if_false, if_true]
      exact ih ek r
    · have hc2 : ek.contains k = false := by simpa using hc
      simp only [hc2, Bool.not_false, Bool.false_eq_true, if_false, if_true]
      rw [descendF_state hE, ih ek r]
      simp [List.flatten_cons]

theorem flatten_key_singletons (ek : List String) :
    ∀ ikvs : List (String × JValue),
      (((ikvs.filter (fun kv => !(ek.contains kv.1))).map (fun kv => [kv.1])).flatten)
        = (ikvs.map Prod.fst).filter (fun k => !(ek.contains k)) := by
  intro ikvs
  induction ikvs with
  | nil => rfl
  | cons kv rest ih =>
    simp only [List.filter_cons, List.map_cons]
    by_cases hm : kv.1 ∈ ek
    · simp [hm]
      simpa using ih
    · simp [hm]
      simpa using ih

end Cfn

namespace Cfn

/-! ### Concrete inputs used by the claim theorems. -/

/-- A resolver with the single default base scope and no stored documents
(what `RefResolver.from_schema` builds for a schema without an id). -/
def r0 : Resolver := ⟨[""], []⟩

/-- The spec example schema of claim C1:
`{"items": {"type": "number"}, "prefixItems": [{"type": "string"}]}`. -/
def c1Schema : JValue :=
  .obj [("items", .obj [("type", .str "number")]),
        ("prefixItems", .arr [.obj [("type", .str "string")]])]

/-- The spec example instance of claim C1: `["a", "b"]`. -/
def c1Inst : JValue := .arr [.str "a", .str "b"]

/-- Dependencies argument `{"a": ["b"]}` (claim C9). -/
def depsArg : JValue := .obj [("a", .arr [.str "b"])]

/-- Instance `{"a": 1}`, which triggers the `a → b` dependency (claim C9). -/
def depInst : JValue := .obj [("a", .int 1)]

/-- Instance `{"a": 1, "b": 2}` with two unclaimed keys (claim C3). -/
def apInst : JValue := .obj [("a", .int 1), ("b", .int 2)]

/-- Schema `{"additionalProperties": false}` (claim C3). -/
def apSchema : JValue := .obj [("additionalProperties", .bool false)]

/-- Outer-scope schema with dynamic anchor `a` (claim C2). -/
def outerS : JValue := .obj [("$dynamicAnchor", .str "a"), ("type", .str "number")]

/-- Inner-scope schema with the same dynamic anchor `a` (claim C2). -/
def innerS : JValue := .obj [("$dynamicAnchor", .str "a"), ("type", .str "string")]

/-- A resolver whose scope stack has outer scope `http://o` below inner
scope `http://i`, both resolving `#a` to anchored schemas (claim C2). -/
def rC2 : Resolver :=
  ⟨["http://o", "http://i"], [("http://o#a", outerS), ("http://i#a", innerS)]⟩

/-- Schema `{"minContains": 2, "maxContains": 3}` (claim C5 witness). -/
def c5Schema : JValue := .obj [("minContains", .int 2), ("maxContains", .int 3)]

/-! ### Claim theorems. -/

/-- C1 (code bug): evaluating the engine at the claim's own example.  The
spec requires that validating `["a", "b"]` against
`{"items": {"type": "number"}, "prefixItems": [{"type": "string"}]}` via
`iter_errors` yields exactly one error with instance path `[1]`; the code
yields no error at all, because `descend` in `validator.py` executes a bare
`yield` instead of `yield error`, forwarding a `None` placeholder per
nested error (second conjunct), which `iter_errors` then silently drops. -/
theorem claim_C1_code_eval :
    (engineAt 6 r0 c1Schema c1Inst).1 = []
    ∧ (descendF (engineAt 6) r0 (.str "b") (.obj [("type", .str "number")]) none none).1
        = [none] :=
  ⟨rfl, rfl⟩

/-- C4 (code bug): with the single branch `{"type": "string"}` failing on
the instance `3`, `oneOf` yields exactly one error, but its nested context
is `[None]` — a placeholder forwarded by the broken `descend` — rather
than the branch's type error, contradicting the claim that the context is
the concatenation of every branch's errors. -/
theorem claim_C4_code_eval :
    (Validators.oneOf (engineAt 6) (.arr [.obj [("type", .str "string")]]) (.int 3)
        (.obj []) r0).1.map (Option.map errContext) = [some [none]] :=
  rfl

/-- C6 counterexample: the claim asserts the default `integer` predicate
holds for the mathematically integral float `10.0`; `_types.is_integer`
rejects every float. -/
theorem claim_C6_counterexample : ¬ (is_integer (JValue.float 10) = true) := by
  decide

/-- C6 (amended): `_types.is_integer` holds exactly for non-boolean ints —
integral floats are rejected; the host-assembled type table
(`JsonSchema.py`) separately re-admits mathematically integral floats, and
still rejects booleans. -/
theorem claim_C6_amended :
    (∀ v : JValue, is_integer v = true ↔ ∃ n : Int, v = JValue.int n)
    ∧ is_integer_host (JValue.float 10) = true
    ∧ is_integer_host (JValue.bool true) = false := by
  refine ⟨fun v => ?_, rfl, rfl⟩
  cases v <;> simp [is_integer]

/-- C7: `iter_errors` on the boolean schema `True` yields nothing, and on
`False` yields exactly one error whose instance path is empty, for every
instance, resolver and recursion depth. -/
theorem claim_C7 : ∀ (n : Nat) (r : Resolver) (inst : JValue),
    engineAt n r (.bool true) inst = ([], r)
    ∧ engineAt n r (.bool false) inst = ([some (falseSchemaError inst)], r)
    ∧ errPath (falseSchemaError inst) = [] := by
  intro n r inst
  exact ⟨engine_true n r inst, engine_false n r inst, rfl⟩

/-- C8: resolver scope pushes and pops balance on every exit path — the
engine (which pushes the schema's scope id around the keyword loop inside
`try`/`finally`) and the `$ref` validator (which pushes the resolved scope
around its descent inside `try`/`finally`) both return the resolver
exactly as it was handed to them, at every recursion depth.  In the
embedding, the guaranteed-cleanup `finally` blocks of the source are the
unconditional pops of the model, covering early exits and abandonment of
the lazy sequence. -/
theorem claim_C8 :
    (∀ (n : Nat) (r : Resolver) (schema inst : JValue),
        (engineAt n r schema inst).2 = r)
    ∧ (∀ (n : Nat) (r : Resolver) (rS inst schema : JValue),
        (Validators.ref (engineAt n) rS inst schema r).2 = r) :=
  ⟨fun n => engineAt_state n,
   fun n r rS inst schema => ref_state (engineAt_state n) rS inst schema r⟩

/-- C9 (code bug): the two copies of the legacy `dependencies` validator
are not observationally equivalent.  On `dependencies = {"a": ["b"]}` and
instance `{"a": 1}`, the `_legacy_validators.py` copy yields the error
`'b' is a dependency of 'a'`, while the `_validators.py` copy — whose body
is only its docstring — returns `None` (no generator), which the engine
treats as yielding nothing. -/
theorem claim_C9_code_eval :
    (Legacy.dependencies_draft4_draft6_draft7 (engineAt 3) depsArg depInst
        (.obj []) r0).1
      = [some (mkVE (squote ++ "b" ++ squote ++ " is a dependency of "
          ++ squote ++ "a" ++ squote))]
    ∧ Validators.dependencies_draft4_draft6_draft7 (engineAt 3) depsArg depInst
        (.obj []) r0 = none :=
  ⟨rfl, rfl⟩

/-- C10: `iter_errors` never yields `None` (first conjunct: at every depth,
every yielded item is `some` error), and the keyword loop equals its
filter-then-stamp reorganisation (second conjunct): a `None` item produced
by a keyword validator's iterable is dropped before stamping, never
stamped and re-yielded, and a validator call that returns `None` instead
of an iterable (`kwContrib`'s `getD`, the `or ()` of the source)
contributes no errors. -/
theorem claim_C10 :
    (∀ (n : Nat) (r : Resolver) (schema inst : JValue),
        ((engineAt n r schema inst).1.all Option.isSome) = true)
    ∧ (∀ (n : Nat) (inst schema : JValue) (kvs : List (String × JValue)) (r : Resolver),
        kwLoop (engineAt n) inst schema kvs r = kwLoopSpec (engineAt n) inst schema kvs r) :=
  ⟨engine_allSome, fun n inst schema => kwLoop_spec_eq (engineAt n) inst schema⟩

end Cfn

namespace Cfn

/-- C2 counterexample: with both the outer scope `http://o` and the inner
scope `http://i` resolving `#a` to schemas declaring the dynamic anchor
`a`, an innermost-first walk would descend into the inner schema
(`{"type": "string"}`, which rejects the instance `5` and therefore
forwards one item); the code instead descends into the outermost match
(`{"type": "number"}`, which accepts `5`), so its output differs from the
innermost-first prediction. -/
theorem claim_C2_counterexample :
    ¬ ((Validators.dynamicRef (engineAt 6) (.str "#a") (.int 5) (.obj []) rC2).1
        = (descendF (engineAt 6) rC2 (.int 5) innerS none none).1) := by
  intro h
  have e1 : (Validators.dynamicRef (engineAt 6) (.str "#a") (.int 5) (.obj []) rC2).1
      = [] := rfl
  have e2 : (descendF (engineAt 6) rC2 (.int 5) innerS none none).1 = [none] := rfl
  rw [e1, e2] at h
  exact List.noConfusion h

/-- C2 (amended): `$dynamicRef` walks the resolver's current scope stack
outermost-first (in list order from the first-pushed scope), resolves the
URI at each candidate, and descends — inside a pushed-and-popped resolving
scope — into the first resolved schema declaring a `$dynamicAnchor` equal
to the URI's fragment; when no scope on the stack matches, it falls back
to ordinary single-shot resolution of the URI.  Stated for stacks whose
every candidate resolves (an unresolvable candidate raises in the
source). -/
theorem claim_C2_amended : ∀ (n : Nat) (r : Resolver) (dRs : String)
    (inst schema : JValue),
    (∀ u ∈ r.scopes_stack, (r.resolve (urljoinM u dRs)).isSome = true) →
    Validators.dynamicRef (engineAt n) (.str dRs) inst schema r =
      (match dynFirstMatch r dRs (splitFrag dRs).2 r.scopes_stack with
       | some (u2, sub) =>
         ((descendF (engineAt n) (r.push_scope u2) inst sub none none).1,
          ((descendF (engineAt n) (r.push_scope u2) inst sub none none).2).pop_scope)
       | none =>
         (match r.resolve dRs with
          | none => ([], r)
          | some (u2, sub) =>
            ((descendF (engineAt n) (r.push_scope u2) inst sub none none).1,
             ((descendF (engineAt n) (r.push_scope u2) inst sub none none).2).pop_scope))) := by
  intro n r dRs inst schema h
  unfold Validators.dynamicRef
  dsimp only
  rw [dynamicRefLoop_firstMatch (engineAt_state n) dRs (splitFrag dRs).2 inst
    r.scopes_stack r h]
  cases hm : dynFirstMatch r dRs (splitFrag dRs).2 r.scopes_stack with
  | some p =>
    obtain ⟨u2, sub⟩ := p
    rfl
  | none => rfl

/-- C2 amended claim, witnessed at the concrete two-scope resolver: every
scope resolves, and the equation of `claim_C2_amended` holds there. -/
theorem claim_C2_amended_witness :
    (∀ u ∈ rC2.scopes_stack, (rC2.resolve (urljoinM u "#a")).isSome = true)
    ∧ Validators.dynamicRef (engineAt 6) (.str "#a") (.int 5) (.obj []) rC2 =
      (match dynFirstMatch rC2 "#a" (splitFrag "#a").2 rC2.scopes_stack with
       | some (u2, sub) =>
         ((descendF (engineAt 6) (rC2.push_scope u2) (.int 5) sub none none).1,
          ((descendF (engineAt 6) (rC2.push_scope u2) (.int 5) sub none none).2).pop_scope)
       | none =>
         (match rC2.resolve "#a" with
          | none => ([], rC2)
          | some (u2, sub) =>
            ((descendF (engineAt 6) (rC2.push_scope u2) (.int 5) sub none none).1,
             ((descendF (engineAt 6) (rC2.push_scope u2) (.int 5) sub none none).2).pop_scope))) :=
  ⟨by decide, claim_C2_amended 6 rC2 "#a" (.int 5) (.obj []) (by decide)⟩

end Cfn

namespace Cfn

theorem isType_array_arr (xs : List JValue) :
    isType "array" (JValue.arr xs) = true := rfl

/-- C3 counterexample: on the schema `{"additionalProperties": false}` (no
`patternProperties`) and the instance `{"a": 1, "b": 2}`, the claim
predicts exactly one aggregated error; the validator yields two errors,
one per unclaimed key. -/
theorem claim_C3_counterexample :
    ¬ ((Validators.additionalProperties (engineAt 3) (.bool false) apInst apSchema
        r0).1.length = 1) := by
  intro h
  have e : (Validators.additionalProperties (engineAt 3) (.bool false) apInst apSchema
      r0).1.length = 2 := rfl
  rw [e] at h
  exact absurd h (by decide)

/-- C3 (amended): for every object instance, `additionalProperties` with a
schema argument descends into each unclaimed key's value (conjunct 2);
with a falsy argument and no `patternProperties`, it yields one error per
unclaimed key, carrying that key as the error's path (conjunct 3); with a
falsy argument and `patternProperties` present, it yields exactly one
aggregated error (conjunct 4).  `unevaluatedProperties` descends into each
key outside the evaluated set, collecting the key once per yielded item
(conjunct 5), and with the argument `false` yields exactly one aggregated
error naming every unevaluated key (conjunct 6).  Conjunct 1 records that
the resolver is returned unchanged. -/
theorem claim_C3_amended : ∀ (n : Nat) (r : Resolver) (aP : JValue)
    (ikvs : List (String × JValue)) (schema : JValue) (evalKeys : List String)
    (uProps : JValue),
    ((Validators.additionalProperties (engineAt n) aP (.obj ikvs) schema r).2 = r)
    ∧ (isType "object" aP = true →
        (Validators.additionalProperties (engineAt n) aP (.obj ikvs) schema r).1 =
          ((find_additional_properties ikvs schema).map (fun x =>
            (match jGet ikvs x with
             | some v => descendF (engineAt n) r v aP (some (.key x)) none
             | none => (([] : List (Option VError)), r)).1)).flatten)
    ∧ (jTruthy aP = false → isType "object" aP = false →
        sGet schema "patternProperties" = none →
        (Validators.additionalProperties (engineAt n) aP (.obj ikvs) schema r).1 =
          (find_additional_properties ikvs schema).map (fun x =>
            some (mkVEPath ("Additional properties are not allowed (" ++ x
              ++ " unexpected)") [.key x])))
    ∧ (jTruthy aP = false → isType "object" aP = false →
        (sGet schema "patternProperties").isSome = true →
        find_additional_properties ikvs schema ≠ [] →
        (Validators.additionalProperties (engineAt n) aP (.obj ikvs) schema r).1.length
          = 1)
    ∧ (Validators.uPropsScan (engineAt n) uProps ikvs evalKeys r =
        (((ikvs.filter (fun kv => !(evalKeys.contains kv.1))).map
            (fun kv => (descendF (engineAt n) r kv.2 uProps (some (.key kv.1))
              (some (.key kv.1))).1.map (fun _ => kv.1))).flatten, r))
    ∧ ((Validators.unevaluatedProperties (engineAt n) evalKeys (.bool false)
          (.obj ikvs) schema r).1 =
        (if ((ikvs.map Prod.fst).filter (fun k => !(evalKeys.contains k))).isEmpty then
          ([] : List (Option VError))
         else
          [some (mkVE ("Unevaluated properties are not allowed ("
            ++ (extras_msg (((ikvs.map Prod.fst).filter
                  (fun k => !(evalKeys.contains k))).map .str)).1
            ++ " "
            ++ (extras_msg (((ikvs.map Prod.fst).filter
                  (fun k => !(evalKeys.contains k))).map .str)).2
            ++ " unexpected)"))])) := by
  intro n r aP ikvs schema evalKeys uProps
  refine ⟨additionalProperties_state (engineAt_state n) aP (.obj ikvs) schema r,
    ?_, ?_, ?_, uPropsScan_out (engineAt_state n) uProps ikvs evalKeys r, ?_⟩
  · intro h2
    simp only [Validators.additionalProperties, isType_object_obj, Bool.not_true,
      Bool.false_eq_true, if_false]
    rw [if_pos h2]
    exact runList_out (fun a r => by
      cases jGet ikvs a with
      | none => rfl
      | some v => exact descendF_state (engineAt_state n) r _ _ _ _) _ r
  · intro hFalsy hObj hPat
    simp only [Validators.additionalProperties, isType_object_obj, Bool.not_true,
      Bool.false_eq_true, if_false]
    rw [if_neg (by simp [hObj])]
    by_cases he : (find_additional_properties ikvs schema).isEmpty = true
    · rw [if_neg (by simp [he])]
      rw [List.isEmpty_iff.mp he]
      rfl
    · have he2 : (find_additional_properties ikvs schema).isEmpty = false := by
        simpa using he
      rw [if_pos (by simp [hFalsy, he2])]
      rw [if_neg (by simp [hPat])]
  · intro hFalsy hObj hPat hne
    simp only [Validators.additionalProperties, isType_object_obj, Bool.not_true,
      Bool.false_eq_true, if_false]
    rw [if_neg (by simp [hObj])]
    have he2 : (find_additional_properties ikvs schema).isEmpty = false := by
      cases hh : (find_additional_properties ikvs schema).isEmpty
      · rfl
      · exact absurd (List.isEmpty_iff.mp hh) hne
    rw [if_pos (by simp [hFalsy, he2])]
    rw [if_pos hPat]
    rfl
  · simp only [Validators.unevaluatedProperties, isType_object_obj, Bool.not_true,
      Bool.false_eq_true, if_false]
    rw [uPropsScan_out (engineAt_state n) (.bool false) ikvs evalKeys r]
    simp only [descend_false, List.map_cons, List.map_nil]
    rw [flatten_key_singletons evalKeys ikvs]
    by_cases hq : ((ikvs.map Prod.fst).filter (fun k => !(evalKeys.contains k))).isEmpty
      = true
    · rw [if_pos hq, if_pos hq]
    · have hq2 : ((ikvs.map Prod.fst).filter (fun k => !(evalKeys.contains k))).isEmpty
          = false := by simpa using hq
      rw [if_neg (by rw [hq2]; exact Bool.false_ne_true),
        if_pos (show isFalseLit (JValue.bool false) = true from rfl),
        if_neg (by rw [hq2]; exact Bool.false_ne_true)]

/-- C3 amended claim, witnessed: on `{"additionalProperties": false}` (no
`patternProperties`) and `{"a": 1, "b": 2}`, conjunct 3 of
`claim_C3_amended` gives one per-key error for each of `a` and `b`. -/
theorem claim_C3_amended_witness :
    (Validators.additionalProperties (engineAt 3) (.bool false)
        (.obj [("a", JValue.int 1), ("b", JValue.int 2)]) apSchema r0).1 =
      (find_additional_properties [("a", JValue.int 1), ("b", JValue.int 2)]
          apSchema).map (fun x =>
        some (mkVEPath ("Additional properties are not allowed (" ++ x
          ++ " unexpected)") [.key x])) := by
  have h := (claim_C3_amended 3 r0 (.bool false)
    [("a", JValue.int 1), ("b", JValue.int 2)] apSchema [] (.bool false)).2.2.1
  exact h rfl rfl rfl

end Cfn

namespace Cfn

/-- C5: `contains` counts the elements valid under the contains schema.
When the count never exceeds `maxContains` (first conjunct, with
`maxContains` defaulting to the instance length), the validator scans the
whole array and yields: one none-matched error when the count is 0 and
`minContains` (default 1) requires more; one too-few error when the count
is positive but below `minContains`; no error otherwise.  When the count
exceeds an explicit `maxContains = M` (second conjunct), it yields exactly
one too-many error, and the scan halts early: every element past the
firing prefix is never examined — replacing the tail by an arbitrary list
leaves the result unchanged. -/
theorem claim_C5 : ∀ (n : Nat) (r : Resolver) (cS schema : JValue) (xs : List JValue),
    (countValid (engineAt n) r cS xs ≤ getIntD schema "maxContains" (xs.length : Int) →
      Validators.contains (engineAt n) cS (.arr xs) schema r =
        ((if countValid (engineAt n) r cS xs < getIntD schema "minContains" 1 then
            (if countValid (engineAt n) r cS xs = 0 then
              [some (Validators.noneMatchErr (.arr xs))]
             else
              [some (Validators.tooFewErr (getIntD schema "minContains" 1)
                (countValid (engineAt n) r cS xs))])
          else []), r))
    ∧ (∀ M : Int, sGet schema "maxContains" = some (.int M) → 0 ≤ M →
        countValid (engineAt n) r cS xs > M →
        Validators.contains (engineAt n) cS (.arr xs) schema r
          = ([some (Validators.tooManyErr M)], r)
        ∧ ∀ ys : List JValue,
            Validators.contains (engineAt n) cS
              (.arr (xs.take (haltLen (engineAt n) r cS M xs 0) ++ ys)) schema r
              = ([some (Validators.tooManyErr M)], r)) := by
  intro n r cS schema xs
  constructor
  · intro h1
    unfold Validators.contains
    simp only [isType_array_arr, Bool.not_true, Bool.false_eq_true, if_false]
    rw [containsScan_no_overflow (engineAt_state n) cS _ xs 0 r (by omega)]
    dsimp only
    simp only [Int.zero_add, beq_iff_eq]
    by_cases hc1 : countValid (engineAt n) r cS xs < getIntD schema "minContains" 1
    · by_cases hc2 : countValid (engineAt n) r cS xs = 0
      · rw [if_pos hc1, if_pos hc2, if_pos hc1, if_pos hc2]
      · rw [if_pos hc1, if_neg hc2, if_pos hc1, if_neg hc2]
    · rw [if_neg hc1, if_neg hc1]
  · intro M hM hM0 hcnt
    have hmax : getIntD schema "maxContains" (xs.length : Int) = M := by
      simp [getIntD, hM]
    constructor
    · unfold Validators.contains
      simp only [isType_array_arr, Bool.not_true, Bool.false_eq_true, if_false]
      rw [hmax]
      have h1 := containsScan_overflow (engineAt_state n) cS M xs 0 r (by omega) (by omega)
      have h2 := containsScan_state (engineAt_state n) cS M xs 0 r
      rcases hscan : Validators.containsScan (engineAt n) cS M xs 0 r with ⟨o, m, r2⟩
      rw [hscan] at h1 h2
      dsimp only at h1 h2
      subst h1
      subst h2
      rfl
    · intro ys
      unfold Validators.contains
      simp only [isType_array_arr, Bool.not_true, Bool.false_eq_true, if_false]
      have hmax2 : getIntD schema "maxContains"
          (((xs.take (haltLen (engineAt n) r cS M xs 0) ++ ys)).length : Int) = M := by
        simp [getIntD, hM]
      rw [hmax2]
      rw [containsScan_halt (engineAt_state n) cS M xs 0 r ys (by omega) (by omega)]
      have h1 := containsScan_overflow (engineAt_state n) cS M xs 0 r (by omega) (by omega)
      have h2 := containsScan_state (engineAt_state n) cS M xs 0 r
      rcases hscan : Validators.containsScan (engineAt n) cS M xs 0 r with ⟨o, m, r2⟩
      rw [hscan] at h1 h2
      dsimp only at h1 h2
      subst h1
      subst h2
      rfl

/-- C5, witnessed at the section-8 example: `minContains: 2, maxContains: 3`
on one matching element yields the too-few error; on five matching elements
the count exceeds 3 and one too-many error is yielded. -/
theorem claim_C5_witness :
    Validators.contains (engineAt 3) (.bool true) (.arr [.int 1]) c5Schema r0
      = ([some (Validators.tooFewErr 2 1)], r0)
    ∧ Validators.contains (engineAt 3) (.bool true)
        (.arr [.int 1, .int 2, .int 3, .int 4, .int 5]) c5Schema r0
      = ([some (Validators.tooManyErr 3)], r0) := by
  constructor
  · have h := (claim_C5 3 r0 (.bool true) c5Schema [.int 1]).1 (by decide)
    rw [h]
    rfl
  · have h := ((claim_C5 3 r0 (.bool true) c5Schema
      [.int 1, .int 2, .int 3, .int 4, .int 5]).2 3 rfl (by decide) (by decide)).1
    exact h

end Cfn
